import Mathlib

/-!
Verification of the bulk job runner and the image post-processing pipeline
of the Gemini-Image single-page application (src/index.tsx), as a shallow
embedding in Lean.

The runner (`runBulkGeneration`, source lines 1062-1176) is modelled as a
pure step function over the job queue; the injected generation capability
and the watermark post-processing step are parameters of type
`String → Except String String` (the runner wraps both calls in a single
try/catch, so any failing post-processing step is covered even though the
deployed `applyWatermark` never rejects).  DOM rendering is dropped; the
per-item DOM row is assumed present (it is created for every item right
before the loop).  `saveToHistory` wraps its whole body in try/catch and
never throws, so it is omitted from the failure model.
-/

set_option maxHeartbeats 1000000

/-- Job status, from the source BulkItem type whose status field is one of
pending, generating, done, error (source line 721).  `done` is the spec
status Done, `error` is Failed. -/
inductive Status where
  | pending
  | generating
  | done
  | error
deriving DecidableEq, Repr

/-- One bulk job record (source line 721).  The source id is the string
bulk-, a timestamp, and the index; the timestamp part is shared by the
whole batch, so within a batch the id is determined by the index, kept
here as a `Nat`.  The source record has no error-message field. -/
structure BulkItem where
  id : Nat
  prompt : String
  status : Status
  imageUrl : Option String
deriving DecidableEq, Repr

/-- JavaScript whitespace recognised by `String.prototype.trim` (the common
code points; exotic Unicode spaces behave the same way and are omitted). -/
def isJsWS (c : Char) : Bool :=
  c == ' ' || c == '\t' || c == '\n' || c == '\r' ||
  c == '\x0b' || c == '\x0c' || c.toNat == 0xA0 || c.toNat == 0xFEFF

/-- `String.prototype.trim` on the character list. -/
def trimChars (cs : List Char) : List Char :=
  ((cs.dropWhile isJsWS).reverse.dropWhile isJsWS).reverse

/-- `s.trim()`. -/
def trimStr (s : String) : String := String.mk (trimChars s.data)

/-- `s.split('\n')` on the character list: every occurrence of the newline
character separates fields, empty fields are kept. -/
def splitNl : List Char → List (List Char)
  | [] => [[]]
  | c :: rest =>
    match splitNl rest with
    | [] => [[]]
    | l :: ls => if c = '\n' then [] :: l :: ls else (c :: l) :: ls

/-- The bulk branch of the generate-button click handler, input side
(source line 1512): `prompt.split('\n').map(p => p.trim()).filter(p => p.length > 0)`. -/
def bulkPrompts (input : String) : List String :=
  ((splitNl input.data).map (fun l => String.mk (trimChars l))).filter
    (fun p => !p.data.isEmpty)

/-- Source lines 1116-1119: append the negative prompt when it is nonempty
(JavaScript truthiness of a string is nonemptiness). -/
def finalPrompt (negativePrompt p : String) : String :=
  if negativePrompt = "" then p
  else p ++ " . Ensure the image does not contain: " ++ negativePrompt ++ "."

/-- Source line 1109: the item status is set to generating. -/
def setGenerating (item : BulkItem) : BulkItem := { item with status := .generating }

/-- The try/catch body of one loop iteration (source lines 1114-1157),
applied to the item already marked `generating`: call the injected
generation capability on the final prompt, then the watermark
post-processing step; on success store the image and mark `done`, on any
raised error mark `error`. -/
def jobFinish (gen wm : String → Except String String) (np : String)
    (item : BulkItem) : BulkItem :=
  match gen (finalPrompt np item.prompt) with
  | .error _ => { item with status := .error }
  | .ok b =>
    match wm b with
    | .error _ => { item with status := .error }
    | .ok b2 => { item with status := .done, imageUrl := some b2 }

/-- In-place update of the queue entry at one index (the source mutates
`bulkQueue[i]` through the `item` reference). -/
def modifyAt {α : Type} (f : α → α) : Nat → List α → List α
  | _, [] => []
  | 0, a :: l => f a :: l
  | n+1, a :: l => a :: modifyAt f n l

/-- The processing loop (source lines 1099-1163) as a snapshot trace: for
each remaining iteration it records the queue right after the
`generating` transition and right after the terminal transition.  The
fuel argument is the number of remaining iterations (`q.length - i` at
the top-level call); the queue length never changes, so this is exactly
the source loop. -/
def processSteps (gen wm : String → Except String String) (np : String) :
    Nat → Nat → List BulkItem → List (List BulkItem)
  | 0, _, _ => []
  | k+1, i, q =>
    modifyAt setGenerating i q ::
      modifyAt (jobFinish gen wm np) i (modifyAt setGenerating i q) ::
        processSteps gen wm np k (i+1)
          (modifyAt (jobFinish gen wm np) i (modifyAt setGenerating i q))

/-- The same loop, returning only the final queue. -/
def runSteps (gen wm : String → Except String String) (np : String) :
    Nat → Nat → List BulkItem → List BulkItem
  | 0, _, q => q
  | k+1, i, q =>
    runSteps gen wm np k (i+1) (modifyAt (jobFinish gen wm np) i (modifyAt setGenerating i q))

/-- The prompts passed to the injected generation capability by the loop:
one call per queue item, in order (every iteration enters the try block
and calls the capability exactly once; queue updates never change the
prompt fields). -/
def runCallsSteps (np : String) : Nat → Nat → List BulkItem → List String
  | 0, _, _ => []
  | k+1, i, q =>
    finalPrompt np (((q.get? i).map (fun it => it.prompt)).getD "") ::
      runCallsSteps np k (i+1) q

/-- Queue creation (source lines 1063-1067):
for each prompt, a record with a fresh id, the trimmed prompt, and the
pending status. -/
def initQueueFrom (i : Nat) : List String → List BulkItem
  | [] => []
  | p :: ps =>
    { id := i, prompt := trimStr p, status := .pending, imageUrl := none } ::
      initQueueFrom (i+1) ps

/-- The whole of `runBulkGeneration` as a trace of queue snapshots: the
freshly created all-pending queue followed by the two snapshots of every
loop iteration. -/
def runBulkTrace (gen wm : String → Except String String) (np : String)
    (prompts : List String) : List (List BulkItem) :=
  initQueueFrom 0 prompts ::
    processSteps gen wm np (initQueueFrom 0 prompts).length 0 (initQueueFrom 0 prompts)

/-- Last element of a list with a fallback. -/
def lastD {α : Type} : List α → α → α
  | [], d => d
  | a :: l, _ => lastD l a

/-- The final queue of `runBulkGeneration`. -/
def runBulkFinal (gen wm : String → Except String String) (np : String)
    (prompts : List String) : List BulkItem :=
  lastD (runBulkTrace gen wm np prompts) []

/-- Result of the bulk branch of the click handler: either the fail-fast
validation error (source line 1514, shown as
"Please enter at least one prompt for bulk generation.") or the completed
batch. -/
inductive BulkOutcome where
  | noValidInput
  | ran (jobs : List BulkItem)
deriving DecidableEq, Repr

/-- Bulk branch of the generate-button click handler (source lines
1510-1519): filter the prompt lines; on an empty result fail fast before
any job is created, otherwise run the batch. -/
def bulkClickHandler (gen wm : String → Except String String) (np : String)
    (input : String) : BulkOutcome :=
  let ps := bulkPrompts input
  if ps.isEmpty then .noValidInput
  else .ran (runBulkFinal gen wm np ps)

/-- The generation-capability calls made by the bulk branch of the click
handler: none at all on the fail-fast path. -/
def bulkGenCalls (np : String) (input : String) : List String :=
  let ps := bulkPrompts input
  if ps.isEmpty then []
  else runCallsSteps np (initQueueFrom 0 ps).length 0 (initQueueFrom 0 ps)

/-- Status of the queue entry at an index (out-of-range reads default to
`pending`; they never occur along the run). -/
def statusAt (q : List BulkItem) (j : Nat) : Status :=
  ((q.get? j).map (fun it => it.status)).getD .pending

/-- Terminal job statuses. -/
def isTerminal (s : Status) : Prop := s = .done ∨ s = .error

/-- The transitions a single snapshot step may apply to one job: stay put,
or move forward along pending → generating → done/error. -/
def stepOK (s t : Status) : Prop :=
  s = t ∨ (s = .pending ∧ t = .generating) ∨
    (s = .generating ∧ (t = .done ∨ t = .error))

/-- The condition of claim C1 on one job: the injected generate call, or
the watermark post-processing of its output, raises an error. -/
def genOrWmFails (gen wm : String → Except String String) (np p : String) : Prop :=
  (∃ e, gen (finalPrompt np p) = .error e) ∨
    (∃ b, gen (finalPrompt np p) = .ok b ∧ ∃ e, wm b = .error e)

/-- Sequential in-order processing, as visible in one snapshot: whenever
some job is `generating`, every earlier job is terminal and every later
job is still `pending`. -/
def ProcessedInOrder (q : List BulkItem) : Prop :=
  ∀ j k, statusAt q j = .generating →
    (k < j → isTerminal (statusAt q k)) ∧
    (j < k → k < q.length → statusAt q k = .pending)

/-!
Image post-processing pipeline.  `applyWatermark` (source lines 511-594)
and `compressImage` (source lines 71-98) decode images through the browser
`Image` element; the decode step is a parameter
`String → Option ImageDims` (`none` models the `onerror` path), and text
measurement is a parameter `String → ℚ → ℚ` (text and font size to
measured width).  Canvas coordinates are JavaScript numbers; they are
embedded as rationals.  At the instances the claims evaluate (e.g.
1000 × 1000 with 3 percent padding) double-precision evaluation is exact
and agrees with the rational value.  The canvas 2d context is assumed
available (the null-context guards are browser failure modes outside this
model).
-/

/-- Pixel dimensions obtained from a successful image decode. -/
structure ImageDims where
  width : Nat
  height : Nat
deriving DecidableEq, Repr

/-- Watermark kind (source line 528): the wm-type-text button selected
means text, otherwise logo image. -/
inductive WmKind where
  | text
  | logo
deriving DecidableEq, Repr

/-- The wm-position select values (source lines 546-556). -/
inductive WmPosition where
  | bottomRight
  | bottomLeft
  | topRight
  | topLeft
  | center
deriving DecidableEq, Repr

/-- Canvas text baseline as set by the text branch: `bottom` everywhere,
switched to `middle` for the center anchor (source lines 539, 554). -/
inductive WmBaseline where
  | bottom
  | middle
deriving DecidableEq, Repr

/-- Everything the text branch draws (source lines 535-562). -/
structure TextRenderSpec where
  text : String
  x : ℚ
  y : ℚ
  fontSize : ℚ
  opacity : ℚ
  baseline : WmBaseline
deriving DecidableEq, Repr

/-- Everything the logo branch draws (source lines 564-582). -/
structure LogoRenderSpec where
  x : ℚ
  y : ℚ
  width : ℚ
  height : ℚ
  opacity : ℚ
deriving DecidableEq, Repr

/-- The watermark UI state read by `applyWatermark` on each call
(source lines 512, 528-530, 536; `watermarkLogoBase64` global). -/
structure WmSettings where
  toggleExists : Bool
  toggleChecked : Bool
  kind : WmKind
  opacity : ℚ
  position : WmPosition
  text : String
  logoBase64 : Option String
deriving DecidableEq, Repr

/-- What `applyWatermark` resolves with: `passthrough` is the exact input
string (no canvas re-encode); the other constructors are the
PNG canvas re-encodes (canvas.toDataURL with the image/png type),
described by what was drawn.
The promise has no reject path. -/
inductive WmOutput where
  | passthrough (image : String)
  | textRender (spec : TextRenderSpec)
  | logoRender (spec : LogoRenderSpec)
  | plainReencode
deriving DecidableEq, Repr

/-- `applyWatermark` (source lines 511-594). -/
def applyWatermark (decode : String → Option ImageDims)
    (measure : String → ℚ → ℚ) (st : WmSettings)
    (base64Image : String) : WmOutput :=
  if !st.toggleExists || !st.toggleChecked then .passthrough base64Image
  else
    match decode base64Image with
    | none => .passthrough base64Image
    | some dims =>
      let w : ℚ := dims.width
      let h : ℚ := dims.height
      let padding : ℚ := w * (3 / 100)
      match st.kind with
      | .text =>
        let text := if st.text = "" then "Watermark" else st.text
        let fontSize : ℚ := w * (5 / 100)
        let textWidth := measure text fontSize
        let textHeight := fontSize
        let xy : ℚ × ℚ :=
          match st.position with
          | .bottomRight => (w - textWidth - padding, h - padding)
          | .bottomLeft => (padding, h - padding)
          | .topRight => (w - textWidth - padding, padding + textHeight)
          | .topLeft => (padding, padding + textHeight)
          | .center => ((w - textWidth) / 2, (h + textHeight) / 2)
        .textRender
          { text := text, x := xy.1, y := xy.2, fontSize := fontSize,
            opacity := st.opacity,
            baseline :=
              match st.position with
              | .center => .middle
              | _ => .bottom }
      | .logo =>
        match st.logoBase64 with
        | none => .plainReencode
        | some logoSrc =>
          match decode logoSrc with
          | none => .passthrough base64Image
          | some ldims =>
            let lw : ℚ := ldims.width
            let lh : ℚ := ldims.height
            let logoTargetWidth := w * (15 / 100)
            let scale := logoTargetWidth / lw
            let logoWidth := lw * scale
            let logoHeight := lh * scale
            let xy : ℚ × ℚ :=
              match st.position with
              | .bottomRight => (w - logoWidth - padding, h - logoHeight - padding)
              | .bottomLeft => (padding, h - logoHeight - padding)
              | .topRight => (w - logoWidth - padding, padding)
              | .topLeft => (padding, padding)
              | .center => ((w - logoWidth) / 2, (h - logoHeight) / 2)
            .logoRender
              { x := xy.1, y := xy.2, width := logoWidth,
                height := logoHeight, opacity := st.opacity }

/-- `Math.round` of JavaScript: round half toward positive infinity. -/
def jsRound (q : ℚ) : ℤ := ⌊q + 1 / 2⌋

/-- The re-encode produced by `compressImage`: final canvas dimensions and
the lossy target (canvas.toDataURL with the image/jpeg type and the
given quality). -/
structure CompressSpec where
  width : Nat
  height : Nat
  quality : ℚ
deriving DecidableEq, Repr

/-- `compressImage` (source lines 71-98): on decode failure the promise
rejects; otherwise scale down to `maxWidth` preserving aspect ratio when
the width exceeds it, and re-encode as JPEG at the given quality. -/
def compressImage (decode : String → Option ImageDims) (base64Str : String)
    (maxWidth : Nat) (quality : ℚ) : Except Unit CompressSpec :=
  match decode base64Str with
  | none => .error ()
  | some dims =>
    if maxWidth < dims.width then
      .ok { width := maxWidth,
            height := (jsRound ((dims.height * maxWidth : ℚ) / dims.width)).toNat,
            quality := quality }
    else
      .ok { width := dims.width, height := dims.height, quality := quality }

/-!
Bulk export (`downloadBulkZip`, source lines 1178-1211).
-/

/-- Decimal digit character. -/
def digitChar : Nat → Char
  | 0 => '0' | 1 => '1' | 2 => '2' | 3 => '3' | 4 => '4'
  | 5 => '5' | 6 => '6' | 7 => '7' | 8 => '8' | _ => '9'

/-- Decimal rendering with explicit fuel (structural, so concrete values
reduce in the kernel). -/
def decCharsAux : Nat → Nat → List Char
  | 0, _ => []
  | fuel+1, n =>
    if n < 10 then [digitChar n]
    else decCharsAux fuel (n / 10) ++ [digitChar (n % 10)]

/-- The decimal digits of a number, as rendered by JavaScript template
interpolation of a nonnegative integer. -/
def decChars (n : Nat) : List Char := decCharsAux (n+1) n

/-- ASCII letter or digit: the character class `[a-z0-9]` with the `i`
flag, as used by the filename sanitizer (source line 1193). -/
def isAlphaNumCh (c : Char) : Bool :=
  ('a' ≤ c && c ≤ 'z') || ('A' ≤ c && c ≤ 'Z') || ('0' ≤ c && c ≤ '9')

/-- One step of `replace(/[^a-z0-9]/gi, '_')`. -/
def sanitizeChar (c : Char) : Char := if isAlphaNumCh c then c else '_'

/-- `prompt.substring(0, 15).replace(/[^a-z0-9]/gi, '_')` (source line
1193).  `substring` counts UTF-16 units; for the basic plane this is the
character count used here. -/
def sanitizeChars (cs : List Char) : List Char := (cs.take 15).map sanitizeChar

/-- Characters allowed in the sanitized stem: `[A-Za-z0-9_]`. -/
def isWordChar (c : Char) : Bool := isAlphaNumCh c || c == '_'

/-- Lowercase ASCII letter, the `[a-z]` of the data-URL pattern. -/
def isLowerAlpha (c : Char) : Bool := 'a' ≤ c && c ≤ 'z'

/-- JavaScript line terminators, which `.` in a regular expression without
the `s` flag does not match. -/
def isLineTerm (c : Char) : Bool :=
  c == '\n' || c == '\r' || c.toNat == 0x2028 || c.toNat == 0x2029

/-- The regular expression test
`imageUrl.match(/^data:(image\x2f[a-z]+);base64,(.+)$/)` (source line
1190), returning the image subtype (the extension, `match[1].split('/')[1]`)
and the base64 payload (`match[2]`). -/
def dataUrlParse (s : String) : Option (String × String) :=
  if s.data.take 11 = "data:image/".data then
    if (s.data.drop 11).takeWhile isLowerAlpha = [] then none
    else if ((s.data.drop 11).drop
        ((s.data.drop 11).takeWhile isLowerAlpha).length).take 8 = ";base64,".data then
      if ((s.data.drop 11).drop
          ((s.data.drop 11).takeWhile isLowerAlpha).length).drop 8 = [] then none
      else if (((s.data.drop 11).drop
          ((s.data.drop 11).takeWhile isLowerAlpha).length).drop 8).all
            (fun c => !isLineTerm c) then
        some (String.mk ((s.data.drop 11).takeWhile isLowerAlpha),
          String.mk (((s.data.drop 11).drop
            ((s.data.drop 11).takeWhile isLowerAlpha).length).drop 8))
      else none
    else none
  else none

/-- The filename stem before the extension dot: image_, the decimal of
index + 1, an underscore, and the sanitized prompt. -/
def stemStr (index : Nat) (p : String) : String :=
  String.mk ("image_".data ++ decChars (index + 1) ++ '_' :: sanitizeChars p.data)

/-- The full zip entry name: the stem followed by a dot and the extension
(source line 1193). -/
def bulkFilename (index : Nat) (p : String) (ext : String) : String :=
  String.mk ("image_".data ++ decChars (index + 1) ++ '_' ::
    (sanitizeChars p.data ++ '.' :: ext.data))

/-- One zip archive entry: name and raw base64 payload. -/
structure ZipEntry where
  filename : String
  payload : String
deriving DecidableEq, Repr

/-- Outcome of `downloadBulkZip`: the "No successful images to download."
alert, or the generated archive. -/
inductive ZipOutcome where
  | noSuccessfulJobs
  | archive (entries : List ZipEntry)
deriving DecidableEq, Repr

/-- The per-item body of the `forEach` (source lines 1188-1197): an entry
is produced when the item is `done`, has an image, and the image matches
the data-URL pattern.  (A `some ""` image is falsy in the source and also
fails the pattern here, so the two filters agree.) -/
def entryFor (index : Nat) (item : BulkItem) : Option ZipEntry :=
  if item.status = .done then
    match item.imageUrl with
    | some url =>
      (dataUrlParse url).map
        (fun sp => { filename := bulkFilename index item.prompt sp.1, payload := sp.2 })
    | none => none
  else none

/-- The `forEach` over the queue with its running index. -/
def zipEntriesFrom (index : Nat) : List BulkItem → List ZipEntry
  | [] => []
  | item :: rest =>
    match entryFor index item with
    | some e => e :: zipEntriesFrom (index+1) rest
    | none => zipEntriesFrom (index+1) rest

/-- `downloadBulkZip` (source lines 1178-1211): build the entries; when
the count is zero alert instead of producing an archive. -/
def downloadBulkZip (queue : List BulkItem) : ZipOutcome :=
  let es := zipEntriesFrom 0 queue
  if es.length = 0 then .noSuccessfulJobs else .archive es

/-- Number of `done` jobs in a queue. -/
def countDone (queue : List BulkItem) : Nat :=
  queue.countP (fun it => decide (it.status = .done))

/-- Number of `done` jobs whose stored image is a well-formed
`data:image/...;base64,...` URL, i.e. the jobs that produce zip entries. -/
def exportPred (it : BulkItem) : Bool :=
  decide (it.status = .done) &&
    (match it.imageUrl with
     | some u => (dataUrlParse u).isSome
     | none => false)

def countDoneParseable (queue : List BulkItem) : Nat :=
  queue.countP exportPred

/-!
Basic lemmas about the runner model.
-/

theorem modifyAt_length {α : Type} (f : α → α) :
    ∀ (n : Nat) (l : List α), (modifyAt f n l).length = l.length := by
  intro n l
  induction l generalizing n with
  | nil => cases n <;> rfl
  | cons a t ih =>
    cases n with
    | zero => rfl
    | succ n => simp [modifyAt, ih]

theorem get?_modifyAt {α : Type} (f : α → α) :
    ∀ (n : Nat) (l : List α) (m : Nat),
      (modifyAt f n l).get? m = if n = m then (l.get? m).map f else l.get? m := by
  intro n l
  induction l generalizing n with
  | nil => intro m; cases n <;> simp [modifyAt]
  | cons a t ih =>
    intro m
    cases n with
    | zero =>
      cases m with
      | zero => simp [modifyAt]
      | succ m => simp [modifyAt]
    | succ n =>
      cases m with
      | zero => simp [modifyAt]
      | succ m => simpa [modifyAt] using ih n m

theorem runSteps_length (gen wm : String → Except String String) (np : String) :
    ∀ (k i : Nat) (q : List BulkItem), (runSteps gen wm np k i q).length = q.length := by
  intro k
  induction k with
  | zero => intro i q; rfl
  | succ k ih =>
    intro i q
    simp only [runSteps]
    rw [ih, modifyAt_length, modifyAt_length]

theorem runSteps_get? (gen wm : String → Except String String) (np : String) :
    ∀ (k i j : Nat) (q : List BulkItem),
      (runSteps gen wm np k i q).get? j =
        if i ≤ j ∧ j < i + k then
          (q.get? j).map (fun it => jobFinish gen wm np (setGenerating it))
        else q.get? j := by
  intro k
  induction k with
  | zero =>
    intro i j q
    simp only [runSteps]
    rw [if_neg (by omega)]
  | succ k ih =>
    intro i j q
    simp only [runSteps]
    rw [ih]
    by_cases hji : j = i
    · subst hji
      rw [if_neg (by omega), if_pos (by omega)]
      rw [get?_modifyAt, if_pos rfl, get?_modifyAt, if_pos rfl]
      cases q.get? j <;> rfl
    · have hij : ¬ i = j := fun he => hji he.symm
      by_cases h1 : i + 1 ≤ j ∧ j < i + 1 + k
      · rw [if_pos h1, get?_modifyAt, if_neg hij, get?_modifyAt, if_neg hij,
          if_pos (show i ≤ j ∧ j < i + (k+1) by omega)]
      · rw [if_neg h1, get?_modifyAt, if_neg hij, get?_modifyAt, if_neg hij,
          if_neg (show ¬ (i ≤ j ∧ j < i + (k+1)) by omega)]

theorem processSteps_lastD (gen wm : String → Except String String) (np : String) :
    ∀ (k i : Nat) (q : List BulkItem),
      lastD (processSteps gen wm np k i q) q = runSteps gen wm np k i q := by
  intro k
  induction k with
  | zero => intro i q; rfl
  | succ k ih =>
    intro i q
    simp only [processSteps, runSteps, lastD]
    exact ih (i+1) _

theorem initQueueFrom_length : ∀ (i : Nat) (ps : List String),
    (initQueueFrom i ps).length = ps.length := by
  intro i ps
  induction ps generalizing i with
  | nil => rfl
  | cons p t ih => simp [initQueueFrom, ih]

theorem initQueueFrom_get? : ∀ (i : Nat) (ps : List String) (j : Nat),
    (initQueueFrom i ps).get? j =
      (ps.get? j).map
        (fun p => { id := i + j, prompt := trimStr p, status := .pending, imageUrl := none }) := by
  intro i ps
  induction ps generalizing i with
  | nil => intro j; simp [initQueueFrom]
  | cons p t ih =>
    intro j
    cases j with
    | zero => simp [initQueueFrom]
    | succ j =>
      have e : i + 1 + j = i + (j + 1) := by omega
      simpa [initQueueFrom, e] using ih (i+1) j

theorem runBulkFinal_eq (gen wm : String → Except String String) (np : String)
    (ps : List String) :
    runBulkFinal gen wm np ps =
      runSteps gen wm np (initQueueFrom 0 ps).length 0 (initQueueFrom 0 ps) := by
  unfold runBulkFinal runBulkTrace
  simp only [lastD]
  exact processSteps_lastD gen wm np _ 0 _

theorem runBulkFinal_get? (gen wm : String → Except String String) (np : String)
    (ps : List String) (j : Nat) :
    (runBulkFinal gen wm np ps).get? j =
      ((initQueueFrom 0 ps).get? j).map (fun it => jobFinish gen wm np (setGenerating it)) := by
  rw [runBulkFinal_eq, runSteps_get?]
  by_cases h : j < (initQueueFrom 0 ps).length
  · rw [if_pos (by omega)]
  · rw [if_neg (by omega), List.get?_eq_none.mpr (by omega)]
    rfl

theorem statusAt_oob {q : List BulkItem} {j : Nat} (h : q.length ≤ j) :
    statusAt q j = .pending := by
  unfold statusAt
  rw [List.get?_eq_none.mpr h]
  rfl

theorem statusAt_modifyAt_ne (f : BulkItem → BulkItem) {i j : Nat} (h : i ≠ j)
    (q : List BulkItem) : statusAt (modifyAt f i q) j = statusAt q j := by
  unfold statusAt
  rw [get?_modifyAt, if_neg h]

theorem statusAt_modifyAt_self (f : BulkItem → BulkItem) {i : Nat}
    {q : List BulkItem} {it : BulkItem} (h : q.get? i = some it) :
    statusAt (modifyAt f i q) i = (f it).status := by
  unfold statusAt
  rw [get?_modifyAt, if_pos rfl, h]
  rfl

theorem statusAt_init (i : Nat) (ps : List String) (j : Nat) :
    statusAt (initQueueFrom i ps) j = .pending := by
  unfold statusAt
  rw [initQueueFrom_get?]
  cases ps.get? j <;> rfl

theorem jobFinish_gen_error {gen wm : String → Except String String} {np : String}
    {it : BulkItem} {e : String} (hg : gen (finalPrompt np it.prompt) = .error e) :
    jobFinish gen wm np it = { it with status := .error } := by
  unfold jobFinish
  simp only [hg]

theorem jobFinish_wm_error {gen wm : String → Except String String} {np : String}
    {it : BulkItem} {b e : String} (hg : gen (finalPrompt np it.prompt) = .ok b)
    (hw : wm b = .error e) :
    jobFinish gen wm np it = { it with status := .error } := by
  unfold jobFinish
  simp only [hg, hw]

theorem jobFinish_ok {gen wm : String → Except String String} {np : String}
    {it : BulkItem} {b b2 : String} (hg : gen (finalPrompt np it.prompt) = .ok b)
    (hw : wm b = .ok b2) :
    jobFinish gen wm np it = { it with status := .done, imageUrl := some b2 } := by
  unfold jobFinish
  simp only [hg, hw]

theorem jobFinish_status (gen wm : String → Except String String) (np : String)
    (it : BulkItem) :
    (jobFinish gen wm np it).status = .done ∨ (jobFinish gen wm np it).status = .error := by
  cases hg : gen (finalPrompt np it.prompt) with
  | error e => right; rw [jobFinish_gen_error hg]
  | ok b =>
    cases hw : wm b with
    | error e => right; rw [jobFinish_wm_error hg hw]
    | ok b2 => left; rw [jobFinish_ok hg hw]

theorem jobFinish_prompt (gen wm : String → Except String String) (np : String)
    (it : BulkItem) : (jobFinish gen wm np it).prompt = it.prompt := by
  cases hg : gen (finalPrompt np it.prompt) with
  | error e => rw [jobFinish_gen_error hg]
  | ok b =>
    cases hw : wm b with
    | error e => rw [jobFinish_wm_error hg hw]
    | ok b2 => rw [jobFinish_ok hg hw]

/-- How one job finishes, in terms of the injected capabilities: `error`
exactly when generate-or-watermark raises, `done` exactly otherwise. -/
theorem jobFinish_error_iff (gen wm : String → Except String String) (np : String)
    (it : BulkItem) :
    ((jobFinish gen wm np it).status = .error ↔ genOrWmFails gen wm np it.prompt) ∧
    ((jobFinish gen wm np it).status = .done ↔ ¬ genOrWmFails gen wm np it.prompt) := by
  unfold genOrWmFails
  cases hg : gen (finalPrompt np it.prompt) with
  | error e =>
    rw [jobFinish_gen_error hg]
    refine ⟨⟨fun _ => Or.inl ⟨e, rfl⟩, fun _ => rfl⟩, ⟨fun h => ?_, fun hn => ?_⟩⟩
    · exact Status.noConfusion h
    · exact absurd (Or.inl ⟨e, rfl⟩) hn
  | ok b =>
    cases hw : wm b with
    | error e2 =>
      rw [jobFinish_wm_error hg hw]
      refine ⟨⟨fun _ => Or.inr ⟨b, rfl, e2, hw⟩, fun _ => rfl⟩, ⟨fun h => ?_, fun hn => ?_⟩⟩
      · exact Status.noConfusion h
      · exact absurd (Or.inr ⟨b, rfl, e2, hw⟩) hn
    | ok b2 =>
      rw [jobFinish_ok hg hw]
      have hnf : ¬ ((∃ e, (Except.ok b : Except String String) = Except.error e) ∨
          (∃ b', (Except.ok b : Except String String) = Except.ok b' ∧
            ∃ e, wm b' = Except.error e)) := by
        rintro (⟨e, he⟩ | ⟨b', hb', e, he⟩)
        · exact Except.noConfusion he
        · obtain rfl : b = b' := by injection hb'
          rw [hw] at he
          exact Except.noConfusion he
      exact ⟨⟨fun h => absurd h (by exact fun h => Status.noConfusion h), fun hf => absurd hf hnf⟩,
        ⟨fun _ => hnf, fun _ => rfl⟩⟩

/-- Claim C1: for every batch and every job index at which the injected
generate call or the watermark post-processing raises an error, the runner
marks that job Failed (`error`), every job — including all later ones —
still reaches a terminal status, and jobs whose calls do not raise end
Done.  The failure of one job never aborts the batch. -/
theorem c1_failure_isolation (gen wm : String → Except String String) (np : String)
    (ps : List String) (j : Nat) (hj : j < ps.length) :
    isTerminal (statusAt (runBulkFinal gen wm np ps) j) ∧
    (genOrWmFails gen wm np (trimStr (ps.getD j "")) →
      statusAt (runBulkFinal gen wm np ps) j = .error) ∧
    (¬ genOrWmFails gen wm np (trimStr (ps.getD j "")) →
      statusAt (runBulkFinal gen wm np ps) j = .done) := by
  obtain ⟨p, hp⟩ : ∃ p, ps.get? j = some p := ⟨_, List.get?_eq_get hj⟩
  have hpd : ps.getD j "" = p := by
    rw [List.getD_eq_get?, hp]
    rfl
  have hst : statusAt (runBulkFinal gen wm np ps) j =
      (jobFinish gen wm np
        (setGenerating
          { id := 0 + j, prompt := trimStr p, status := .pending, imageUrl := none })).status := by
    unfold statusAt
    rw [runBulkFinal_get?, initQueueFrom_get?, hp]
    rfl
  have hiff := jobFinish_error_iff gen wm np
    (setGenerating
      { id := 0 + j, prompt := trimStr p, status := .pending, imageUrl := none })
  rw [hpd, hst]
  exact ⟨jobFinish_status gen wm np _, fun hf => hiff.1.mpr hf, fun hn => hiff.2.mpr hn⟩

/-- Witness for C1, realising the example in the claim: prompts
`["a", "b", "c"]` with the generate capability failing exactly on `"b"`
end as statuses `[Done, Failed, Done]`. -/
theorem c1_failure_isolation_witness :
    ((runBulkFinal
        (fun p => if p = "b" then Except.error "boom" else Except.ok "data:image/png;base64,OK")
        (fun b => Except.ok b) "" ["a", "b", "c"]).map (fun it => it.status) =
      [.done, .error, .done]) ∧
    statusAt (runBulkFinal
        (fun p => if p = "b" then Except.error "boom" else Except.ok "data:image/png;base64,OK")
        (fun b => Except.ok b) "" ["a", "b", "c"]) 1 = .error := by
  refine ⟨by decide, ?_⟩
  exact (c1_failure_isolation
    (fun p => if p = "b" then Except.error "boom" else Except.ok "data:image/png;base64,OK")
    (fun b => Except.ok b) "" ["a", "b", "c"] 1 (by decide)).2.1
    (Or.inl ⟨"boom", by rfl⟩)

/-- Claim C2: when the prompt list is empty after trimming each line and
filtering out blanks, the bulk branch fails fast with the validation
error, creates no job records (no `ran` outcome exists), and the generate
capability is never invoked. -/
theorem c2_no_valid_input (gen wm : String → Except String String) (np : String)
    (input : String) (h : bulkPrompts input = []) :
    bulkClickHandler gen wm np input = .noValidInput ∧
    bulkGenCalls np input = [] ∧
    ∀ jobs, bulkClickHandler gen wm np input ≠ .ran jobs := by
  refine ⟨?_, ?_, ?_⟩ <;> simp [bulkClickHandler, bulkGenCalls, h]

/-- Witness for C2: an input of blank lines only. -/
theorem c2_no_valid_input_witness :
    bulkClickHandler (fun _ => Except.ok "IMG") (fun b => Except.ok b) "" "  \n \n" =
      .noValidInput ∧
    bulkGenCalls "" "  \n \n" = [] := by
  have h := c2_no_valid_input (fun _ => Except.ok "IMG") (fun b => Except.ok b) ""
    "  \n \n" (by decide)
  exact ⟨h.1, h.2.1⟩

/-- Pointwise legal step between two adjacent queue snapshots. -/
def StepAll (a b : List BulkItem) : Prop := ∀ j, stepOK (statusAt a j) (statusAt b j)

theorem stepOK_terminal {s t : Status} (h : isTerminal s) (hst : stepOK s t) : t = s := by
  rcases hst with h1 | ⟨h1, _⟩ | ⟨h1, _⟩
  · exact h1.symm
  · rw [h1] at h
    rcases h with h2 | h2 <;> exact Status.noConfusion h2
  · rw [h1] at h
    rcases h with h2 | h2 <;> exact Status.noConfusion h2

theorem chain_processSteps (gen wm : String → Except String String) (np : String) :
    ∀ (k i : Nat) (q : List BulkItem),
      (∀ j, i ≤ j → statusAt q j = .pending) →
      List.Chain' StepAll (q :: processSteps gen wm np k i q) := by
  intro k
  induction k with
  | zero =>
    intro i q _
    exact List.chain'_singleton q
  | succ k ih =>
    intro i q hp
    simp only [processSteps]
    rw [List.chain'_cons, List.chain'_cons]
    refine ⟨?_, ?_, ?_⟩
    · intro j
      rcases eq_or_ne i j with rfl | hij
      · have hqi := hp i (Nat.le_refl i)
        cases hq : q.get? i with
        | none =>
          have h1 : statusAt (modifyAt setGenerating i q) i = .pending := by
            unfold statusAt
            rw [get?_modifyAt, if_pos rfl, hq]
            rfl
          rw [h1, hqi]
          left; rfl
        | some it =>
          have h1 : statusAt (modifyAt setGenerating i q) i = .generating :=
            statusAt_modifyAt_self setGenerating hq
          rw [h1, hqi]
          right; left; exact ⟨rfl, rfl⟩
      · rw [statusAt_modifyAt_ne setGenerating hij]
        left; rfl
    · intro j
      rcases eq_or_ne i j with rfl | hij
      · cases hq : q.get? i with
        | none =>
          have e0 : (modifyAt setGenerating i q).get? i = none := by
            rw [get?_modifyAt, if_pos rfl, hq]
            rfl
          have h1 : statusAt (modifyAt setGenerating i q) i = .pending := by
            unfold statusAt
            rw [e0]
            rfl
          have h2 : statusAt
              (modifyAt (jobFinish gen wm np) i (modifyAt setGenerating i q)) i = .pending := by
            unfold statusAt
            rw [get?_modifyAt, if_pos rfl, e0]
            rfl
          rw [h1, h2]
          left; rfl
        | some it =>
          have e1 : (modifyAt setGenerating i q).get? i = some (setGenerating it) := by
            rw [get?_modifyAt, if_pos rfl, hq]
            rfl
          have h1 : statusAt (modifyAt setGenerating i q) i = .generating :=
            statusAt_modifyAt_self setGenerating hq
          have h2 : statusAt
              (modifyAt (jobFinish gen wm np) i (modifyAt setGenerating i q)) i =
              (jobFinish gen wm np (setGenerating it)).status :=
            statusAt_modifyAt_self (jobFinish gen wm np) e1
          rw [h1, h2]
          right; right
          exact ⟨rfl, jobFinish_status gen wm np (setGenerating it)⟩
      · rw [statusAt_modifyAt_ne (jobFinish gen wm np) hij,
          statusAt_modifyAt_ne setGenerating hij]
        left; rfl
    · refine ih (i+1) _ ?_
      intro j hj
      rw [statusAt_modifyAt_ne (jobFinish gen wm np) (by omega),
        statusAt_modifyAt_ne setGenerating (by omega)]
      exact hp j (by omega)

theorem chain_adjacent {α : Type} {R : α → α → Prop} (d : α) :
    ∀ (l : List α), List.Chain' R l → ∀ k, k + 1 < l.length → R (l.getD k d) (l.getD (k+1) d) := by
  intro l
  induction l with
  | nil =>
    intro _ k hk
    simp at hk
  | cons a t ih =>
    intro hc k hk
    cases t with
    | nil => simp at hk
    | cons b t2 =>
      rw [List.chain'_cons] at hc
      cases k with
      | zero => simpa using hc.1
      | succ k =>
        have := ih hc.2 k (by simpa using hk)
        simpa using this

theorem runBulkTrace_chain (gen wm : String → Except String String) (np : String)
    (prompts : List String) :
    List.Chain' StepAll (runBulkTrace gen wm np prompts) := by
  unfold runBulkTrace
  exact chain_processSteps gen wm np _ 0 _ (fun j _ => statusAt_init 0 prompts j)

/-- Claim C4: along the snapshot trace of the runner every job status only
moves forward (pending → generating → done/error, or stays put), and once
a job is terminal in some snapshot it keeps exactly that status in every
later snapshot. -/
theorem c4_forward_only (gen wm : String → Except String String) (np : String)
    (prompts : List String) :
    (∀ k j, k + 1 < (runBulkTrace gen wm np prompts).length →
      stepOK (statusAt ((runBulkTrace gen wm np prompts).getD k []) j)
        (statusAt ((runBulkTrace gen wm np prompts).getD (k+1) []) j)) ∧
    (∀ k1 k2 j, k1 ≤ k2 → k2 < (runBulkTrace gen wm np prompts).length →
      isTerminal (statusAt ((runBulkTrace gen wm np prompts).getD k1 []) j) →
      statusAt ((runBulkTrace gen wm np prompts).getD k2 []) j =
        statusAt ((runBulkTrace gen wm np prompts).getD k1 []) j) := by
  have hadj : ∀ k j, k + 1 < (runBulkTrace gen wm np prompts).length →
      stepOK (statusAt ((runBulkTrace gen wm np prompts).getD k []) j)
        (statusAt ((runBulkTrace gen wm np prompts).getD (k+1) []) j) :=
    fun k j hk => chain_adjacent [] _ (runBulkTrace_chain gen wm np prompts) k hk j
  refine ⟨hadj, ?_⟩
  intro k1 k2 j h12
  induction k2, h12 using Nat.le_induction with
  | base =>
    intro _ _
    rfl
  | succ n hn ih =>
    intro h2 hterm
    have e1 := ih (by omega) hterm
    have hs := hadj n j h2
    rw [e1] at hs
    exact stepOK_terminal hterm hs

/-- Witness for C4 at a concrete two-prompt batch: one adjacent step of
the trace is a legal forward step, and the first job, terminal from
snapshot 2 on, still has the same status in the last snapshot. -/
theorem c4_forward_only_witness :
    stepOK
      (statusAt ((runBulkTrace (fun _ => Except.ok "IMG") (fun b => Except.ok b) ""
        ["a", "b"]).getD 0 []) 0)
      (statusAt ((runBulkTrace (fun _ => Except.ok "IMG") (fun b => Except.ok b) ""
        ["a", "b"]).getD 1 []) 0) ∧
    statusAt ((runBulkTrace (fun _ => Except.ok "IMG") (fun b => Except.ok b) ""
        ["a", "b"]).getD 4 []) 0 =
      statusAt ((runBulkTrace (fun _ => Except.ok "IMG") (fun b => Except.ok b) ""
        ["a", "b"]).getD 2 []) 0 := by
  have h := c4_forward_only (fun _ => Except.ok "IMG") (fun b => Except.ok b) "" ["a", "b"]
  exact ⟨h.1 0 0 (by decide), h.2 2 4 0 (by omega) (by decide) (Or.inl (by decide))⟩

theorem inorder_vacuous {q : List BulkItem}
    (h : ∀ j, statusAt q j ≠ .generating) : ProcessedInOrder q :=
  fun j _ hj => absurd hj (h j)

theorem no_generating_of_inv {q : List BulkItem} {i : Nat}
    (hterm : ∀ j, j < i → j < q.length → isTerminal (statusAt q j))
    (hpend : ∀ j, i ≤ j → statusAt q j = .pending) :
    ∀ j, statusAt q j ≠ .generating := by
  intro j
  by_cases hj : i ≤ j
  · rw [hpend j hj]
    decide
  · by_cases hl : j < q.length
    · rcases hterm j (by omega) hl with h | h <;> rw [h] <;> decide
    · rw [statusAt_oob (by omega)]
      decide

theorem inorder_processSteps (gen wm : String → Except String String) (np : String) :
    ∀ (k i : Nat) (q : List BulkItem),
      i + k = q.length →
      (∀ j, j < i → j < q.length → isTerminal (statusAt q j)) →
      (∀ j, i ≤ j → statusAt q j = .pending) →
      ∀ s, s ∈ (q :: processSteps gen wm np k i q) → ProcessedInOrder s := by
  intro k
  induction k with
  | zero =>
    intro i q _ hterm hpend s hs
    simp only [processSteps, List.mem_singleton] at hs
    subst hs
    exact inorder_vacuous (no_generating_of_inv hterm hpend)
  | succ k ih =>
    intro i q hik hterm hpend s hs
    have hq : i < q.length := by omega
    obtain ⟨it, hit⟩ : ∃ it, q.get? i = some it := ⟨_, List.get?_eq_get hq⟩
    have e1 : (modifyAt setGenerating i q).get? i = some (setGenerating it) := by
      rw [get?_modifyAt, if_pos rfl, hit]
      rfl
    simp only [processSteps, List.mem_cons] at hs
    rcases hs with rfl | rfl | hs
    · exact inorder_vacuous (no_generating_of_inv hterm hpend)
    · intro j m hj
      have hji : j = i := by
        by_contra hne
        rw [statusAt_modifyAt_ne setGenerating (fun he => hne he.symm)] at hj
        exact no_generating_of_inv hterm hpend j hj
      subst hji
      constructor
      · intro hm
        rw [statusAt_modifyAt_ne setGenerating (by omega)]
        exact hterm m (by omega) (by omega)
      · intro h1 _
        rw [statusAt_modifyAt_ne setGenerating (by omega)]
        exact hpend m (by omega)
    · refine ih (i+1) _ ?_ ?_ ?_ s (by simpa using hs)
      · rw [modifyAt_length, modifyAt_length]
        omega
      · intro j hj hjl
        rw [modifyAt_length, modifyAt_length] at hjl
        rcases Nat.lt_or_ge j i with hlt | hge
        · rw [statusAt_modifyAt_ne (jobFinish gen wm np) (by omega),
            statusAt_modifyAt_ne setGenerating (by omega)]
          exact hterm j hlt hjl
        · have hji : j = i := by omega
          subst hji
          rw [statusAt_modifyAt_self (jobFinish gen wm np) e1]
          exact jobFinish_status gen wm np (setGenerating it)
      · intro j hj
        rw [statusAt_modifyAt_ne (jobFinish gen wm np) (by omega),
          statusAt_modifyAt_ne setGenerating (by omega)]
        exact hpend j (by omega)

/-- Claim C3: for every non-empty input prompt list the bulk run creates
exactly one job per prompt, in input order, each holding the trimmed
prompt text, the final queue keeps that length and order, and every
snapshot of the run shows strictly in-order one-at-a-time processing
(whenever a job is generating, all earlier jobs are terminal and all
later jobs are still pending). -/
theorem c3_jobs_in_order (gen wm : String → Except String String) (np : String)
    (ps : List String) (hne : ps ≠ []) :
    (initQueueFrom 0 ps).length = ps.length ∧
    (∀ j, ((initQueueFrom 0 ps).get? j).map (fun it => it.prompt) =
      (ps.get? j).map trimStr) ∧
    (runBulkFinal gen wm np ps).length = ps.length ∧
    (∀ j, ((runBulkFinal gen wm np ps).get? j).map (fun it => it.prompt) =
      (ps.get? j).map trimStr) ∧
    (∀ s, s ∈ runBulkTrace gen wm np ps → ProcessedInOrder s) := by
  refine ⟨initQueueFrom_length 0 ps, ?_, ?_, ?_, ?_⟩
  · intro j
    rw [initQueueFrom_get?]
    cases ps.get? j <;> rfl
  · rw [runBulkFinal_eq, runSteps_length, initQueueFrom_length]
  · intro j
    rw [runBulkFinal_get?, initQueueFrom_get?]
    cases ps.get? j with
    | none => rfl
    | some p =>
      simp only [Option.map_some']
      congr 1
      rw [jobFinish_prompt]
      rfl
  · intro s hs
    unfold runBulkTrace at hs
    refine inorder_processSteps gen wm np _ 0 _ (by omega) ?_ ?_ s hs
    · intro j hj _
      exact absurd hj (Nat.not_lt_zero j)
    · intro j _
      exact statusAt_init 0 ps j

/-- Witness for C3 at a concrete batch. -/
theorem c3_jobs_in_order_witness :
    (initQueueFrom 0 ["a", " b "]).length = 2 ∧
    (runBulkFinal (fun _ => Except.ok "IMG") (fun b => Except.ok b) "" ["a", " b "]).length = 2 := by
  have h := c3_jobs_in_order (fun _ => Except.ok "IMG") (fun b => Except.ok b) ""
    ["a", " b "] (by decide)
  exact ⟨h.1.trans (by decide), h.2.2.1.trans (by decide)⟩

/-- The text drawn by a watermark output, when it is a text render. -/
def wmTextOf : WmOutput → Option String
  | .textRender spec => some spec.text
  | _ => none

/-- Claim C6: with the watermark toggle absent or unchecked,
`applyWatermark` returns the input image itself — the very same encoded
payload, with no canvas re-encode (the `passthrough` constructor carries
the input string unchanged). -/
theorem c6_disabled_identity (decode : String → Option ImageDims)
    (measure : String → ℚ → ℚ) (st : WmSettings) (base64Image : String)
    (h : st.toggleExists = false ∨ st.toggleChecked = false) :
    applyWatermark decode measure st base64Image = .passthrough base64Image := by
  rcases h with h | h <;> simp [applyWatermark, h]

/-- Witness for C6. -/
theorem c6_disabled_identity_witness :
    applyWatermark (fun _ => some { width := 10, height := 10 }) (fun _ _ => 1)
      { toggleExists := true, toggleChecked := false, kind := .text, opacity := 1,
        position := .bottomRight, text := "WM", logoBase64 := none } "IMG" =
      .passthrough "IMG" :=
  c6_disabled_identity (fun _ => some { width := 10, height := 10 }) (fun _ _ => 1)
    { toggleExists := true, toggleChecked := false, kind := .text, opacity := 1,
      position := .bottomRight, text := "WM", logoBase64 := none } "IMG" (Or.inr rfl)

/-- Claim C7: with a Logo-kind configuration whose logo asset fails to
decode, `applyWatermark` returns the original input unchanged; the
promise has no reject path (the output type of the model is total), so it
never raises. -/
theorem c7_logo_fail_open (decode : String → Option ImageDims)
    (measure : String → ℚ → ℚ) (st : WmSettings) (base64Image : String)
    (logoSrc : String) (hk : st.kind = .logo) (hl : st.logoBase64 = some logoSrc)
    (hd : decode logoSrc = none) :
    applyWatermark decode measure st base64Image = .passthrough base64Image := by
  by_cases ht : !st.toggleExists || !st.toggleChecked
  · simp [applyWatermark, ht]
  · cases hpd : decode base64Image with
    | none => simp [applyWatermark, ht, hpd]
    | some dims => simp [applyWatermark, ht, hpd, hk, hl, hd]

/-- Witness for C7. -/
theorem c7_logo_fail_open_witness :
    applyWatermark (fun s => if s = "LOGO" then none else some { width := 100, height := 80 })
      (fun _ _ => 1)
      { toggleExists := true, toggleChecked := true, kind := .logo, opacity := 1,
        position := .bottomRight, text := "", logoBase64 := some "LOGO" } "IMG" =
      .passthrough "IMG" :=
  c7_logo_fail_open
    (fun s => if s = "LOGO" then none else some { width := 100, height := 80 })
    (fun _ _ => 1)
    { toggleExists := true, toggleChecked := true, kind := .logo, opacity := 1,
      position := .bottomRight, text := "", logoBase64 := some "LOGO" } "IMG" "LOGO"
    rfl rfl (by rfl)

/-- Counterexample to claim C8 as stated: at a concrete enabled text
configuration whose primary image cannot be decoded, `applyWatermark`
resolves with the original input unchanged (`img.onerror` at source line
591 calls `resolve(base64Image)`), so the watermark stage swallows the
primary decode failure instead of propagating it as a stage failure —
the job is not marked Failed by this stage. -/
theorem c8_counterexample :
    applyWatermark (fun _ => none) (fun _ _ => 0)
      { toggleExists := true, toggleChecked := true, kind := .text, opacity := 1,
        position := .bottomRight, text := "WM", logoBase64 := none } "IMG" =
      .passthrough "IMG" := by
  decide

/-- Claim C8 as amended: for every input that cannot be decoded as an
image, `compressImage` (normalize) rejects with an error, while the
watermark stage fails open — `applyWatermark` returns the original input
unchanged rather than failing. -/
theorem c8_decode_failures (decode : String → Option ImageDims)
    (measure : String → ℚ → ℚ) (st : WmSettings) (s : String)
    (maxWidth : Nat) (quality : ℚ) (hd : decode s = none) :
    compressImage decode s maxWidth quality = .error () ∧
    applyWatermark decode measure st s = .passthrough s := by
  constructor
  · unfold compressImage
    rw [hd]
  · by_cases ht : !st.toggleExists || !st.toggleChecked
    · simp [applyWatermark, ht]
    · simp [applyWatermark, ht, hd]

/-- Witness for the amended C8. -/
theorem c8_decode_failures_witness :
    compressImage (fun _ => none) "BAD" 800 (7/10) = .error () ∧
    applyWatermark (fun _ => none) (fun _ _ => 0)
      { toggleExists := true, toggleChecked := true, kind := .text, opacity := 1,
        position := .bottomRight, text := "WM", logoBase64 := none } "BAD" =
      .passthrough "BAD" :=
  c8_decode_failures (fun _ => none) (fun _ _ => 0)
    { toggleExists := true, toggleChecked := true, kind := .text, opacity := 1,
      position := .bottomRight, text := "WM", logoBase64 := none } "BAD" 800 (7/10) rfl

/-- Claim C9: on a 1000 × 1000 image with measured text width 100, the
BottomRight text anchor draws at x = 1000 − 100 − 30 = 870 and
y = 1000 − 30 = 970, with font size 50 (5 percent of the width), padding
30 (3 percent of the width), and a bottom text baseline.  (At these values
the double-precision products 1000·0.03 and 1000·0.05 are exactly 30 and
50, so the rational model agrees with the JavaScript floats.) -/
theorem c9_bottom_right_anchor :
    applyWatermark (fun _ => some { width := 1000, height := 1000 }) (fun _ _ => 100)
      { toggleExists := true, toggleChecked := true, kind := .text, opacity := 4/5,
        position := .bottomRight, text := "WM", logoBase64 := none } "img" =
      .textRender
        { text := "WM", x := 870, y := 970, fontSize := 50, opacity := 4/5,
          baseline := .bottom } := by
  norm_num [applyWatermark]
  exact fun h => absurd h (by decide)

/-- Claim C10: with the watermark enabled in Text kind and an empty
configured text, `applyWatermark` renders the literal fallback string
"Watermark" (source line 536, the falsy-or fallback) — a text render is
produced, not a pass-through. -/
theorem c10_default_text (decode : String → Option ImageDims)
    (measure : String → ℚ → ℚ) (st : WmSettings) (base64Image : String)
    (dims : ImageDims) (h1 : st.toggleExists = true) (h2 : st.toggleChecked = true)
    (h3 : st.kind = .text) (h4 : st.text = "")
    (hdec : decode base64Image = some dims) :
    wmTextOf (applyWatermark decode measure st base64Image) = some "Watermark" := by
  simp [applyWatermark, h1, h2, h3, h4, hdec, wmTextOf]

/-- Witness for C10. -/
theorem c10_default_text_witness :
    wmTextOf (applyWatermark (fun _ => some { width := 200, height := 100 })
      (fun _ _ => 40)
      { toggleExists := true, toggleChecked := true, kind := .text, opacity := 1,
        position := .topLeft, text := "", logoBase64 := none } "IMG") =
      some "Watermark" :=
  c10_default_text (fun _ => some { width := 200, height := 100 }) (fun _ _ => 40)
    { toggleExists := true, toggleChecked := true, kind := .text, opacity := 1,
      position := .topLeft, text := "", logoBase64 := none } "IMG"
    { width := 200, height := 100 } rfl rfl rfl rfl rfl

/-!
Lemmas for the export archive (claim C5).
-/

theorem string_eq_of_data {a b : String} (h : a.data = b.data) : a = b := by
  cases a
  cases b
  exact congrArg String.mk h

theorem data_mk (l : List Char) : (String.mk l).data = l := rfl

/-- ASCII decimal digit. -/
def isDigitCh (c : Char) : Bool := '0' ≤ c && c ≤ '9'

/-- Digit value of a character. -/
def decVal (c : Char) : Nat := c.toNat - 48

/-- Decimal value of a digit list. -/
def decListVal (cs : List Char) : Nat := cs.foldl (fun a c => 10 * a + decVal c) 0

theorem decVal_digitChar {m : Nat} (h : m < 10) : decVal (digitChar m) = m := by
  interval_cases m <;> rfl

theorem isDigitCh_digitChar {m : Nat} (h : m < 10) : isDigitCh (digitChar m) = true := by
  interval_cases m <;> decide

theorem decCharsAux_digits : ∀ (fuel n : Nat), ∀ c ∈ decCharsAux fuel n, isDigitCh c = true := by
  intro fuel
  induction fuel with
  | zero =>
    intro n c hc
    simp [decCharsAux] at hc
  | succ fuel ih =>
    intro n c hc
    by_cases h : n < 10
    · simp only [decCharsAux, if_pos h, List.mem_singleton] at hc
      subst hc
      exact isDigitCh_digitChar h
    · simp only [decCharsAux, if_neg h, List.mem_append, List.mem_singleton] at hc
      rcases hc with hc | hc
      · exact ih (n / 10) c hc
      · subst hc
        exact isDigitCh_digitChar (Nat.mod_lt _ (by omega))

theorem decListVal_append_digit (cs : List Char) (c : Char) :
    decListVal (cs ++ [c]) = 10 * decListVal cs + decVal c := by
  unfold decListVal
  rw [List.foldl_append]
  rfl

theorem decListVal_decCharsAux : ∀ (fuel n : Nat), n < fuel →
    decListVal (decCharsAux fuel n) = n := by
  intro fuel
  induction fuel with
  | zero =>
    intro n h
    omega
  | succ fuel ih =>
    intro n h
    by_cases h10 : n < 10
    · simp only [decCharsAux, if_pos h10]
      show 10 * 0 + decVal (digitChar n) = n
      rw [decVal_digitChar h10]
      omega
    · simp only [decCharsAux, if_neg h10]
      have hdiv : n / 10 < fuel := by
        have := Nat.div_lt_self (show 0 < n by omega) (show (1:Nat) < 10 by omega)
        omega
      rw [decListVal_append_digit, ih (n / 10) hdiv,
        decVal_digitChar (Nat.mod_lt _ (by omega))]
      omega

theorem decChars_inj {m n : Nat} (h : decChars m = decChars n) : m = n := by
  have hm := decListVal_decCharsAux (m+1) m (by omega)
  have hn := decListVal_decCharsAux (n+1) n (by omega)
  unfold decChars at h
  rw [← hm, ← hn, h]

theorem decChars_digits {n : Nat} : ∀ c ∈ decChars n, isDigitCh c = true :=
  decCharsAux_digits (n+1) n

/-- Splitting at a separator character that never occurs in the two
leading segments. -/
theorem sep_split {P : Char → Prop} {sep : Char} (hsep : ¬ P sep) :
    ∀ (a b r1 r2 : List Char), (∀ c ∈ a, P c) → (∀ c ∈ b, P c) →
      a ++ sep :: r1 = b ++ sep :: r2 → a = b ∧ r1 = r2 := by
  intro a
  induction a with
  | nil =>
    intro b r1 r2 _ hb h
    cases b with
    | nil => simpa using h
    | cons x xs =>
      simp only [List.nil_append, List.cons_append, List.cons.injEq] at h
      exact absurd (by rw [h.1]; exact hb x (by simp)) hsep
  | cons x xs ih =>
    intro b r1 r2 ha hb h
    cases b with
    | nil =>
      simp only [List.nil_append, List.cons_append, List.cons.injEq] at h
      exact absurd (by rw [← h.1]; exact ha x (by simp)) hsep
    | cons y ys =>
      simp only [List.cons_append, List.cons.injEq] at h
      obtain ⟨rfl, h2⟩ := h
      obtain ⟨h3, h4⟩ := ih ys r1 r2 (fun c hc => ha c (by simp [hc]))
        (fun c hc => hb c (by simp [hc])) h2
      exact ⟨by rw [h3], h4⟩

theorem bulkFilename_inj_index {i j : Nat} {p1 p2 e1 e2 : String}
    (h : bulkFilename i p1 e1 = bulkFilename j p2 e2) : i = j := by
  unfold bulkFilename at h
  have hd : "image_".data ++ (decChars (i+1) ++ '_' :: (sanitizeChars p1.data ++ '.' :: e1.data)) =
      "image_".data ++ (decChars (j+1) ++ '_' :: (sanitizeChars p2.data ++ '.' :: e2.data)) := by
    have := congrArg String.data h
    rw [data_mk, data_mk] at this
    simpa [List.append_assoc] using this
  have hd2 := List.append_cancel_left hd
  have hsplit := @sep_split (fun c => isDigitCh c = true) '_' (by decide)
    (decChars (i+1)) (decChars (j+1)) _ _ decChars_digits decChars_digits hd2
  have := decChars_inj hsplit.1
  omega

theorem isWordChar_of_digit {c : Char} (h : isDigitCh c = true) : isWordChar c = true := by
  unfold isDigitCh at h
  rw [Bool.and_eq_true] at h
  unfold isWordChar isAlphaNumCh
  have h0 : ('0' ≤ c) := of_decide_eq_true h.1
  have h9 : (c ≤ '9') := of_decide_eq_true h.2
  simp [h0, h9]

theorem isWordChar_sanitizeChar (d : Char) : isWordChar (sanitizeChar d) = true := by
  unfold sanitizeChar
  by_cases h : isAlphaNumCh d = true
  · rw [if_pos h]
    unfold isWordChar
    simp [h]
  · rw [if_neg h]
    decide

theorem stemStr_word {k : Nat} {p : String} :
    ∀ c ∈ (stemStr k p).data, isWordChar c = true := by
  intro c hc
  rw [stemStr, data_mk] at hc
  rcases List.mem_append.mp hc with hc1 | hc2
  · rcases List.mem_append.mp hc1 with hcA | hcB
    · have he : ("image_" : String).data = ['i', 'm', 'a', 'g', 'e', '_'] := rfl
      rw [he] at hcA
      simp only [List.mem_cons, List.not_mem_nil, or_false] at hcA
      rcases hcA with rfl | rfl | rfl | rfl | rfl | rfl <;> decide
    · exact isWordChar_of_digit (decChars_digits c hcB)
  · rcases List.mem_cons.mp hc2 with rfl | hcC
    · decide
    · unfold sanitizeChars at hcC
      obtain ⟨d, _, rfl⟩ := List.mem_map.mp hcC
      exact isWordChar_sanitizeChar d

theorem bulkFilename_eq_stem (i : Nat) (p ext : String) :
    bulkFilename i p ext = stemStr i p ++ "." ++ ext := by
  apply string_eq_of_data
  rw [String.data_append, String.data_append, stemStr, data_mk, bulkFilename, data_mk]
  have hdot : ("." : String).data = ['.'] := rfl
  rw [hdot]
  simp [List.append_assoc]

theorem dataUrlParse_sub {s sub payload : String}
    (h : dataUrlParse s = some (sub, payload)) :
    sub.data ≠ [] ∧ ∀ c ∈ sub.data, isLowerAlpha c = true := by
  unfold dataUrlParse at h
  split_ifs at h with h1 h2 h3 h4 h5
  all_goals try exact Option.noConfusion h
  simp only [Option.some.injEq, Prod.mk.injEq] at h
  obtain ⟨rfl, rfl⟩ := h
  constructor
  · rw [data_mk]
    exact h2
  · intro c hc
    rw [data_mk] at hc
    exact List.mem_takeWhile_imp hc

theorem entryFor_some {i : Nat} {item : BulkItem} {e : ZipEntry}
    (h : entryFor i item = some e) :
    item.status = .done ∧ ∃ url sub payload, item.imageUrl = some url ∧
      dataUrlParse url = some (sub, payload) ∧
      e = { filename := bulkFilename i item.prompt sub, payload := payload } := by
  unfold entryFor at h
  split_ifs at h with hst
  · refine ⟨hst, ?_⟩
    cases hu : item.imageUrl with
    | none =>
      simp only [hu] at h
      exact absurd h (by simp)
    | some url =>
      simp only [hu] at h
      cases hp : dataUrlParse url with
      | none =>
        rw [hp] at h
        exact absurd h (by simp)
      | some sp =>
        rw [hp] at h
        simp only [Option.map_some', Option.some.injEq] at h
        exact ⟨url, sp.1, sp.2, rfl, by rw [hp], h.symm⟩

theorem entryFor_isSome (i : Nat) (item : BulkItem) :
    (entryFor i item).isSome = exportPred item := by
  unfold entryFor exportPred
  by_cases hst : item.status = .done
  · rw [if_pos hst]
    simp only [hst, decide_True, Bool.true_and]
    cases item.imageUrl with
    | none => rfl
    | some u => cases hdp : dataUrlParse u <;> simp [hdp]
  · rw [if_neg hst]
    simp [hst]

theorem zipEntriesFrom_length : ∀ (q : List BulkItem) (i : Nat),
    (zipEntriesFrom i q).length = q.countP exportPred := by
  intro q
  induction q with
  | nil => intro i; rfl
  | cons item rest ih =>
    intro i
    rw [List.countP_cons]
    cases he : entryFor i item with
    | some e =>
      have hp : exportPred item = true := by
        rw [← entryFor_isSome i item, he]
        rfl
      simp [zipEntriesFrom, he, ih (i+1), hp]
    | none =>
      have hp : exportPred item = false := by
        rw [← entryFor_isSome i item, he]
        rfl
      simp [zipEntriesFrom, he, ih (i+1), hp]

theorem zipEntriesFrom_mem : ∀ (q : List BulkItem) (i : Nat) (e : ZipEntry),
    e ∈ zipEntriesFrom i q →
    ∃ k item sub, q.get? k = some item ∧ item.status = .done ∧
      sub.data ≠ [] ∧ (∀ c ∈ sub.data, isLowerAlpha c = true) ∧
      e.filename = bulkFilename (i + k) item.prompt sub := by
  intro q
  induction q with
  | nil =>
    intro i e he
    simp [zipEntriesFrom] at he
  | cons item rest ih =>
    intro i e he
    unfold zipEntriesFrom at he
    cases hf : entryFor i item with
    | some e0 =>
      rw [hf] at he
      rcases List.mem_cons.mp he with rfl | he2
      · obtain ⟨hst, url, sub, payload, hu, hp, rfl⟩ := entryFor_some hf
        exact ⟨0, item, sub, rfl, hst, (dataUrlParse_sub hp).1, (dataUrlParse_sub hp).2,
          by simp⟩
      · obtain ⟨k, item2, sub, a1, a2, a3, a4, a5⟩ := ih (i+1) e he2
        refine ⟨k+1, item2, sub, a1, a2, a3, a4, ?_⟩
        rw [a5]
        congr 1
        omega
    | none =>
      rw [hf] at he
      obtain ⟨k, item2, sub, a1, a2, a3, a4, a5⟩ := ih (i+1) e he
      refine ⟨k+1, item2, sub, a1, a2, a3, a4, ?_⟩
      rw [a5]
      congr 1
      omega

theorem zipEntriesFrom_pairwise : ∀ (q : List BulkItem) (i : Nat),
    (zipEntriesFrom i q).Pairwise (fun a b => a.filename ≠ b.filename) := by
  intro q
  induction q with
  | nil => intro i; exact List.Pairwise.nil
  | cons item rest ih =>
    intro i
    unfold zipEntriesFrom
    cases hf : entryFor i item with
    | some e0 =>
      refine List.Pairwise.cons ?_ (ih (i+1))
      intro e2 he2 hcontra
      obtain ⟨k, item2, sub2, _, _, _, _, b5⟩ := zipEntriesFrom_mem rest (i+1) e2 he2
      obtain ⟨hst, url, sub0, payload, hu, hp, rfl⟩ := entryFor_some hf
      rw [b5] at hcontra
      have := bulkFilename_inj_index hcontra
      omega
    | none => exact ih (i+1)

theorem countDoneParseable_zero_of_countDone {q : List BulkItem}
    (h : countDone q = 0) : countDoneParseable q = 0 := by
  unfold countDone at h
  unfold countDoneParseable
  rw [List.countP_eq_zero] at h ⊢
  intro a ha hpa
  unfold exportPred at hpa
  rw [Bool.and_eq_true] at hpa
  exact h a ha hpa.1

/-- Counterexample to claim C5 as stated: a batch of two Done jobs, one of
which stores an image that is not a well-formed data URL.  The archive
contains one entry, not two (one entry per Done job fails), and its
filename "image_2_b.png" contains a dot, a character outside
`[A-Za-z0-9_]`. -/
theorem c5_counterexample :
    countDone
      [{ id := 0, prompt := "a", status := Status.done, imageUrl := some "garbage" },
       { id := 1, prompt := "b", status := Status.done,
         imageUrl := some "data:image/png;base64,AAAA" }] = 2 ∧
    downloadBulkZip
      [{ id := 0, prompt := "a", status := Status.done, imageUrl := some "garbage" },
       { id := 1, prompt := "b", status := Status.done,
         imageUrl := some "data:image/png;base64,AAAA" }] =
      .archive [{ filename := "image_2_b.png", payload := "AAAA" }] ∧
    ¬ (∀ c ∈ ("image_2_b.png" : String).data, isWordChar c = true) := by
  decide

/-- Claim C5 (amended): an export with no well-formed Done job — in
particular with zero Done jobs — fails with NoSuccessfulJobs; with at
least one Done job whose stored image is a well-formed
`data:image/...;base64,...` URL, it returns an archive with exactly one
entry per such Done job, the filenames pairwise distinct and each of the
form `stem.ext` where the stem (`image_` + index+1 + `_` + the first 15
characters of the prompt with every character outside `[A-Za-z0-9]`
replaced by the fixed separator `_`) contains only `[A-Za-z0-9_]` and the
extension is the nonempty lowercase image subtype. -/
theorem c5_export_archive (q : List BulkItem) :
    (countDone q = 0 → downloadBulkZip q = .noSuccessfulJobs) ∧
    (countDoneParseable q = 0 → downloadBulkZip q = .noSuccessfulJobs) ∧
    (0 < countDoneParseable q →
      ∃ es, downloadBulkZip q = .archive es ∧
        es.length = countDoneParseable q ∧
        es.Pairwise (fun a b => a.filename ≠ b.filename) ∧
        ∀ e ∈ es, ∃ k item ext, q.get? k = some item ∧ item.status = .done ∧
          e.filename = stemStr k item.prompt ++ "." ++ ext ∧
          (∀ c ∈ (stemStr k item.prompt).data, isWordChar c = true) ∧
          ext.data ≠ [] ∧ (∀ c ∈ ext.data, isLowerAlpha c = true)) := by
  have hlen : (zipEntriesFrom 0 q).length = countDoneParseable q := zipEntriesFrom_length q 0
  refine ⟨?_, ?_, ?_⟩
  · intro h
    unfold downloadBulkZip
    rw [if_pos (by rw [hlen]; exact countDoneParseable_zero_of_countDone h)]
  · intro h
    unfold downloadBulkZip
    rw [if_pos (by rw [hlen]; exact h)]
  · intro h
    refine ⟨zipEntriesFrom 0 q, ?_, hlen, zipEntriesFrom_pairwise q 0, ?_⟩
    · unfold downloadBulkZip
      rw [if_neg (by rw [hlen]; omega)]
    · intro e he
      obtain ⟨k, item, sub, a1, a2, a3, a4, a5⟩ := zipEntriesFrom_mem q 0 e he
      refine ⟨k, item, sub, a1, a2, ?_, stemStr_word, a3, a4⟩
      rw [a5, Nat.zero_add, bulkFilename_eq_stem]

/-- Witness for the amended C5: the empty batch fails with
NoSuccessfulJobs, and a one-job batch with a well-formed Done job yields
a one-entry archive. -/
theorem c5_export_archive_witness :
    downloadBulkZip [] = ZipOutcome.noSuccessfulJobs ∧
    ∃ es, downloadBulkZip
        [{ id := 0, prompt := "a", status := Status.done,
           imageUrl := some "data:image/png;base64,AAAA" }] = .archive es ∧
      es.length = 1 := by
  constructor
  · exact (c5_export_archive []).1 rfl
  · obtain ⟨es, e1, e2, -, -⟩ := (c5_export_archive
      [{ id := 0, prompt := "a", status := Status.done,
         imageUrl := some "data:image/png;base64,AAAA" }]).2.2 (by decide)
    exact ⟨es, e1, by rw [e2]; decide⟩
